import Mathlib

/-
Verification of the sign-language recognizer core (my_recognizer.py and
my_model_selectors.py) against its natural-language specification.

Shallow embedding conventions:
- The external HMM primitives (GaussianHMM(...).fit and model.score) are
  modelled as abstract functions returning Option values: some v is a
  successful call, none is a call that raises.  Log-likelihoods and the
  value of np.log(N) are modelled as exact rationals.
- Python float("-inf") sentinels are modelled by WithBot Q (bottom is
  negative infinity); float("inf") by WithTop Q (top is positive infinity).
- Python dicts are modelled as association lists in insertion order, since
  the code iterates dicts in that order.
-/

set_option maxHeartbeats 1000000

/-!  ## Definitions: recognizer (my_recognizer.py, recognize)  -/

/-- Score value recorded by the recognizer for one (word, model) pair:
a successful scoring call records its rational log-likelihood, a failed call
(the bare except in recognize) records float("-inf"), i.e. bottom. -/
def scoreOrNegInf (sc : Option ℚ) : WithBot ℚ :=
  match sc with
  | some v => (v : WithBot ℚ)
  | none => ⊥

/-- Helper to prepend the current (word, score) entry to the word_prob dict
built by the rest of the loop, keeping best_score and best_guess. -/
def addHead {Word : Type} (w : Word) (s : WithBot ℚ)
    (r : WithBot ℚ × Option Word × List (Word × WithBot ℚ)) :
    WithBot ℚ × Option Word × List (Word × WithBot ℚ) :=
  (r.1, r.2.1, (w, s) :: r.2.2)

/-- The inner loop of recognize over models.items(): threads best_score
(initially float("-inf")) and best_guess (initially None), and builds the
word_prob dict.  A model whose score call raises is recorded as bottom;
the guess is replaced only on a strict improvement (score > best_score). -/
def recogLoop {Model Word Item : Type} (score : Model → Item → Option ℚ) (it : Item) :
    List (Word × Model) → WithBot ℚ → Option Word →
      WithBot ℚ × Option Word × List (Word × WithBot ℚ)
  | [], bs, bg => (bs, bg, [])
  | (w, m) :: rest, bs, bg =>
    addHead w (scoreOrNegInf (score m it))
      (recogLoop score it rest
        (if bs < scoreOrNegInf (score m it) then scoreOrNegInf (score m it) else bs)
        (if bs < scoreOrNegInf (score m it) then some w else bg))

/-- One iteration of the outer loop of recognize: the word_prob row and the
best guess for a single test item. -/
def recognizeItem {Model Word Item : Type} (models : List (Word × Model))
    (score : Model → Item → Option ℚ) (it : Item) :
    List (Word × WithBot ℚ) × Option Word :=
  ((recogLoop score it models ⊥ none).2.2, (recogLoop score it models ⊥ none).2.1)

/-- recognize from my_recognizer.py: returns (probabilities, guesses), both
ordered by the test set word_id. -/
def recognize {Model Word Item : Type} (models : List (Word × Model))
    (score : Model → Item → Option ℚ) (test : List Item) :
    List (List (Word × WithBot ℚ)) × List (Option Word) :=
  (test.map fun it => (recognizeItem models score it).1,
   test.map fun it => (recognizeItem models score it).2)

/-!  ## Definitions: ModelSelector base class (my_model_selectors.py)  -/

/-- The state stored by ModelSelector.__init__ on a successful construction:
every argument is stored as-is, plus the target word's own sequences and
ConcatenatedSequences looked up from the two dicts. -/
structure MSState (Word Seqs XL : Type) where
  words : List (Word × Seqs)
  hwords : List (Word × XL)
  sequences : Seqs
  xlengths : XL
  thisWord : Word
  nConstant : ℕ
  minNComponents : ℕ
  maxNComponents : ℕ
  randomState : ℕ
  verbose : Bool

/-- ModelSelector.__init__: the two dict subscripts
all_word_sequences[this_word] and all_word_Xlengths[this_word] raise KeyError
(modelled as none) when the target word is missing; every field, including
the search-range bounds, is stored without validation. -/
def modelSelectorInit {Word Seqs XL : Type} [DecidableEq Word]
    (allWordSequences : List (Word × Seqs)) (allWordXlengths : List (Word × XL))
    (thisWord : Word) (nConstant minN maxN randomState : ℕ) (verbose : Bool) :
    Option (MSState Word Seqs XL) :=
  match allWordSequences.lookup thisWord with
  | none => none
  | some seqs =>
    match allWordXlengths.lookup thisWord with
    | none => none
    | some xl =>
      some ⟨allWordSequences, allWordXlengths, seqs, xl, thisWord,
            nConstant, minN, maxN, randomState, verbose⟩

/-- ModelSelector.base_model: wraps the external GaussianHMM fit on the
word's full data (self.X, self.lengths) for a given state count; the
try/except turns a raising fit into None, which the Option-valued external
primitive hmmFit already encodes. -/
def base_model {Model : Type} (hmmFit : ℕ → Option Model) (numStates : ℕ) :
    Option Model :=
  match hmmFit numStates with
  | none => none
  | some m => some m

/-- The candidate state counts range(min_n_components, max_n_components + 1),
in ascending order; empty when the interval is empty. -/
def candRange (minN maxN : ℕ) : List ℕ :=
  List.range' minN (maxN + 1 - minN)

/-- Sum of a list of fallible values, as built by the accumulation loops of
SelectorDIC and SelectorCV: the total is available only when every summand
call succeeded; the first failure aborts the whole accumulation. -/
def sumOpt : List (Option ℚ) → Option ℚ
  | [] => some 0
  | o :: rest =>
    match o with
    | none => none
    | some v =>
      match sumOpt rest with
      | none => none
      | some t => some (v + t)

/-!  ## Definitions: SelectorConstant  -/

namespace SelectorConstant

/-- SelectorConstant.select: returns base_model(self.n_constant); the stored
search-range bounds are ignored. -/
def select {Model : Type} (hmmFit : ℕ → Option Model)
    (nConstant minN maxN : ℕ) : Option Model :=
  base_model hmmFit nConstant

end SelectorConstant

/-!  ## Definitions: SelectorBIC  -/

/-- The BIC score computed for one candidate: p = n**2 + 2*n*d - 1 free
parameters (d the feature dimensionality model.n_features) and
BIC = -2*logL + p*log(N); lnN stands for the external value
np.log(self.X.shape[0]), N being the total number of observation frames. -/
def bicOf (lnN : ℚ) (d : ℕ) (n : ℕ) (L : ℚ) : ℚ :=
  -2 * L + ((((n : ℤ) ^ 2 + 2 * (n : ℤ) * (d : ℤ) - 1 : ℤ)) : ℚ) * lnN

/-- One iteration of the SelectorBIC.select loop up to the comparison: fit
via base_model (None on failure, on which the subsequent attribute access
raises and the except skips the candidate), score the model on the word's
own training data (a raising score call is also caught), then build the BIC
score. -/
def bicCandidate {Model : Type} (hmmFit : ℕ → Option Model)
    (scoreSelf : Model → Option ℚ) (nFeatures : Model → ℕ) (lnN : ℚ)
    (n : ℕ) : Option (Model × ℚ) :=
  match base_model hmmFit n with
  | none => none
  | some m =>
    match scoreSelf m with
    | none => none
    | some L => some (m, bicOf lnN (nFeatures m) n L)

/-- The running comparison of a minimizing selection loop: best score starts
at float("inf") (top) and a candidate replaces the incumbent only on a
strict improvement (bic_score < best_bic_score). -/
def selMinStep {Model : Type} (cand : ℕ → Option (Model × ℚ))
    (st : WithTop ℚ × Option Model) (n : ℕ) : WithTop ℚ × Option Model :=
  match cand n with
  | none => st
  | some (m, c) => if (c : WithTop ℚ) < st.1 then ((c : WithTop ℚ), some m) else st

namespace SelectorBIC

/-- SelectorBIC.select: fold the minimizing comparison over the ascending
candidate range, starting from best_bic_score = float("inf") and
best_model = None. -/
def select {Model : Type} (hmmFit : ℕ → Option Model)
    (scoreSelf : Model → Option ℚ) (nFeatures : Model → ℕ) (lnN : ℚ)
    (minN maxN : ℕ) : Option Model :=
  ((candRange minN maxN).foldl
    (selMinStep (bicCandidate hmmFit scoreSelf nFeatures lnN)) (⊤, none)).2

end SelectorBIC

/-!  ## Definitions: SelectorDIC  -/

/-- The running comparison of a maximizing selection loop: best score starts
at float("-inf") (bottom) and a candidate replaces the incumbent only on a
strict improvement (score > best_score). -/
def selMaxStep {Model : Type} (cand : ℕ → Option (Model × ℚ))
    (st : WithBot ℚ × Option Model) (n : ℕ) : WithBot ℚ × Option Model :=
  match cand n with
  | none => st
  | some (m, c) => if st.1 < (c : WithBot ℚ) then ((c : WithBot ℚ), some m) else st

/-- One iteration of the SelectorDIC.select loop up to the comparison: fit
via base_model, score the model on the word's own data, then sum the scores
of the same model on every word of aginst_words (the vocabulary minus the
target word, scored on self.hwords[word]); any raising call skips the
candidate, and so does the ZeroDivisionError raised when
len(self.words) - 1 == 0.  On success the DIC score is
logL - sum_other_logL / (len(self.words) - 1). -/
def dicCandidate {Model Word : Type} [DecidableEq Word] (hmmFit : ℕ → Option Model)
    (scoreSelf : Model → Option ℚ) (scoreOn : Model → Word → Option ℚ)
    (words : List Word) (thisWord : Word) (n : ℕ) : Option (Model × ℚ) :=
  match base_model hmmFit n with
  | none => none
  | some m =>
    match scoreSelf m with
    | none => none
    | some L =>
      match sumOpt ((words.filter (fun w => w ≠ thisWord)).map (scoreOn m)) with
      | none => none
      | some t =>
        if ((words.length : ℤ) - 1) = 0 then none
        else some (m, L - t / ((((words.length : ℤ) - 1 : ℤ)) : ℚ))

namespace SelectorDIC

/-- SelectorDIC.select: fold the maximizing comparison over the ascending
candidate range, starting from best_dic_score = float("-inf") and
best_model = None. -/
def select {Model Word : Type} [DecidableEq Word] (hmmFit : ℕ → Option Model)
    (scoreSelf : Model → Option ℚ) (scoreOn : Model → Word → Option ℚ)
    (words : List Word) (thisWord : Word) (minN maxN : ℕ) : Option Model :=
  ((candRange minN maxN).foldl
    (selMaxStep (dicCandidate hmmFit scoreSelf scoreOn words thisWord)) (⊥, none)).2

end SelectorDIC

/-!  ## Definitions: SelectorCV  -/

/-- The KFold loop of one SelectorCV candidate: accumulate the held-out
log-likelihood of every fold (foldLL k i is the external fit-on-train /
score-on-test outcome for candidate k and fold i, none when either call
raises) and divide by iter_num; there is no per-fold exception handling, so
a single failing fold loses the whole accumulation. -/
def cvMean (foldLL : ℕ → ℕ → Option ℚ) (numFolds : ℕ) (k : ℕ) : Option ℚ :=
  match sumOpt ((List.range numFolds).map (foldLL k)) with
  | none => none
  | some t => some (t / (numFolds : ℚ))

/-- One iteration of the SelectorCV.select loop on the multi-example path
(last_model is None here, so a winning candidate is refit on the full data).
Python executes best_score = score before attempting the refit, so a refit
that raises leaves best_model unchanged while best_score has already been
raised to the failed candidate's score. -/
def cvStep {Model : Type} (fitFull : ℕ → Option Model) (foldLL : ℕ → ℕ → Option ℚ)
    (numFolds : ℕ) (st : WithBot ℚ × Option Model) (k : ℕ) :
    WithBot ℚ × Option Model :=
  match cvMean foldLL numFolds k with
  | none => st
  | some sc =>
    if st.1 < (sc : WithBot ℚ) then
      match fitFull k with
      | none => ((sc : WithBot ℚ), st.2)
      | some m => ((sc : WithBot ℚ), some m)
    else st

/-- One iteration of the SelectorCV.select loop on the single-example path
(len(self.sequences) <= 1): the fit into last_model may raise and be caught,
and otherwise the line score = model.score(self.X, self.lengths) reads the
local variable model, which is only ever assigned inside the multi-fold
branch and hence is unbound on this path, raising UnboundLocalError; either
way the except swallows it and the candidate leaves the state unchanged. -/
def cvStepSingle {Model : Type} (fitFull : ℕ → Option Model)
    (st : WithBot ℚ × Option Model) (k : ℕ) : WithBot ℚ × Option Model :=
  match fitFull k with
  | none => st
  | some _ => st

namespace SelectorCV

/-- SelectorCV.select: numSeq is len(self.sequences); on the multi-example
path the number of folds is min(len(self.sequences), 3); fitFull k is the
external GaussianHMM(k, ...).fit(self.X, self.lengths) on the word's full
data.  Folds the candidate comparison over the ascending range from
best_score = float("-inf") and best_model = None. -/
def select {Model : Type} (numSeq : ℕ) (fitFull : ℕ → Option Model)
    (foldLL : ℕ → ℕ → Option ℚ) (minN maxN : ℕ) : Option Model :=
  if numSeq ≤ 1 then
    ((candRange minN maxN).foldl (cvStepSingle fitFull) (⊥, none)).2
  else
    ((candRange minN maxN).foldl (cvStep fitFull foldLL (min numSeq 3)) (⊥, none)).2

end SelectorCV

/-- Concrete full-data refit outcomes used to exercise the SelectorCV
comparison: the refit succeeds for every candidate except k = 3. -/
def cvRefitScenario : ℕ → Option ℕ :=
  fun k => if k = 3 then none else some k

/-- Concrete per-fold held-out log-likelihoods used to exercise the
SelectorCV comparison: candidate 2 averages 5, candidate 3 averages 10,
every other candidate averages 7. -/
def cvMeanScenario : ℕ → ℕ → Option ℚ :=
  fun k _ => if k = 2 then some 5 else if k = 3 then some 10 else some 7

/-!  ## Theorems  -/

/-- Invariant of the recognizer's inner loop: the produced row lists every
model's recorded score in iteration order; the final best score bounds the
starting score and every row entry; and either nothing strictly improved on
the starting score (state unchanged) or the final guess is a row entry whose
score equals the final best score and strictly exceeds the start. -/
theorem recogLoop_spec {Model Word Item : Type} (score : Model → Item → Option ℚ)
    (it : Item) :
    ∀ (l : List (Word × Model)) (bs : WithBot ℚ) (bg : Option Word),
      (recogLoop score it l bs bg).2.2
          = l.map (fun wm => (wm.1, scoreOrNegInf (score wm.2 it))) ∧
      bs ≤ (recogLoop score it l bs bg).1 ∧
      (∀ p ∈ (recogLoop score it l bs bg).2.2, p.2 ≤ (recogLoop score it l bs bg).1) ∧
      (((recogLoop score it l bs bg).1 = bs ∧ (recogLoop score it l bs bg).2.1 = bg) ∨
        ∃ p ∈ (recogLoop score it l bs bg).2.2,
          (recogLoop score it l bs bg).2.1 = some p.1 ∧
            p.2 = (recogLoop score it l bs bg).1 ∧ bs < (recogLoop score it l bs bg).1) := by
  intro l
  induction l with
  | nil =>
    intro bs bg
    simp [recogLoop]
  | cons hd tl ih =>
    intro bs bg
    obtain ⟨w, m⟩ := hd
    by_cases h : bs < scoreOrNegInf (score m it)
    · obtain ⟨ih1, ih2, ih3, ih4⟩ := ih (scoreOrNegInf (score m it)) (some w)
      simp only [recogLoop, addHead, if_pos h]
      refine ⟨by simp [ih1], le_of_lt (lt_of_lt_of_le h ih2), ?_, ?_⟩
      · intro p hp
        rcases List.mem_cons.mp hp with hp | hp
        · subst hp; exact ih2
        · exact ih3 p hp
      · rcases ih4 with ⟨he, hg⟩ | ⟨p, hp, hg, hv, hlt⟩
        · exact Or.inr ⟨(w, scoreOrNegInf (score m it)), List.mem_cons_self _ _,
            by simpa using hg, he.symm, by rw [he]; exact h⟩
        · exact Or.inr ⟨p, List.mem_cons_of_mem _ hp, hg, hv, lt_trans h hlt⟩
    · obtain ⟨ih1, ih2, ih3, ih4⟩ := ih bs bg
      simp only [recogLoop, addHead, if_neg h]
      refine ⟨by simp [ih1], ih2, ?_, ?_⟩
      · intro p hp
        rcases List.mem_cons.mp hp with hp | hp
        · subst hp; exact le_trans (not_lt.mp h) ih2
        · exact ih3 p hp
      · rcases ih4 with ⟨he, hg⟩ | ⟨p, hp, hg, hv, hlt⟩
        · exact Or.inl ⟨he, hg⟩
        · exact Or.inr ⟨p, List.mem_cons_of_mem _ hp, hg, hv, hlt⟩

/-- Claim C1: a scoring failure of a single model is recorded as negative
infinity for that (item, model) pair instead of raising, recognition of
every item completes (output lists cover every test item in order), and a
test item for which every model fails to score yields an all-bottom row and
an absent guess (None), not a crash. -/
theorem recognize_failure_isolation {Model Word Item : Type}
    (models : List (Word × Model)) (score : Model → Item → Option ℚ)
    (test : List Item) :
    (recognize models score test).1.length = test.length ∧
    (recognize models score test).2.length = test.length ∧
    ∀ (i : ℕ) (it : Item), test[i]? = some it →
      (recognize models score test).1[i]? = some (recognizeItem models score it).1 ∧
      (recognize models score test).2[i]? = some (recognizeItem models score it).2 ∧
      (∀ w m, (w, m) ∈ models → score m it = none →
          (w, (⊥ : WithBot ℚ)) ∈ (recognizeItem models score it).1) ∧
      ((∀ wm ∈ models, score wm.2 it = none) →
          (∀ p ∈ (recognizeItem models score it).1, p.2 = ⊥) ∧
          (recognizeItem models score it).2 = none) := by
  refine ⟨by simp [recognize], by simp [recognize], ?_⟩
  intro i it hit
  refine ⟨by simp [recognize, List.getElem?_map, hit],
          by simp [recognize, List.getElem?_map, hit], ?_, ?_⟩
  · intro w m hm hsc
    have : (w, scoreOrNegInf (score m it)) ∈ (recognizeItem models score it).1 := by
      show (w, scoreOrNegInf (score m it)) ∈ (recogLoop score it models ⊥ none).2.2
      rw [(recogLoop_spec score it models ⊥ none).1]
      exact List.mem_map.mpr ⟨(w, m), hm, rfl⟩
    simpa [hsc, scoreOrNegInf] using this
  · intro hall
    obtain ⟨h1, h2, h3, h4⟩ := recogLoop_spec score it models ⊥ none
    have hbot : ∀ p ∈ (recogLoop score it models ⊥ none).2.2, p.2 = (⊥ : WithBot ℚ) := by
      intro p hp
      rw [h1] at hp
      obtain ⟨wm, hwm, hpe⟩ := List.mem_map.mp hp
      rw [← hpe]
      simp [scoreOrNegInf, hall wm hwm]
    refine ⟨hbot, ?_⟩
    show (recogLoop score it models ⊥ none).2.1 = none
    rcases h4 with ⟨_, hg⟩ | ⟨p, hp, _, hv, hlt⟩
    · exact hg
    · rw [hbot p hp] at hv
      rw [← hv] at hlt
      exact absurd hlt (lt_irrefl _)

/-- Concrete check of C1: with two models where model 0 fails to score, the
pair (word 0, bottom) is recorded in the item's row. -/
theorem recognize_failure_isolation_witness :
    ((0 : ℕ), (⊥ : WithBot ℚ)) ∈
      (recognizeItem [((0 : ℕ), (0 : ℕ)), (1, 1)]
        (fun m (_ : ℕ) => if m = 0 then (none : Option ℚ) else some 3) 0).1 := by
  have h := recognize_failure_isolation [((0 : ℕ), (0 : ℕ)), (1, 1)]
    (fun m (_ : ℕ) => if m = 0 then (none : Option ℚ) else some 3) [0]
  exact (h.2.2 0 0 rfl).2.2.1 0 0 (by decide) (by decide)

/-- Claim C2: recognize returns a ScoreTable and GuessList of equal length,
equal to the number of test items and in test-item order, and any item whose
row holds at least one finite (non-bottom) score gets a guess word whose
recorded score equals the maximum value of its row. -/
theorem recognize_argmax {Model Word Item : Type}
    (models : List (Word × Model)) (score : Model → Item → Option ℚ)
    (test : List Item) :
    ((recognize models score test).1.length = test.length ∧
      (recognize models score test).2.length = test.length) ∧
    ∀ (i : ℕ) (it : Item), test[i]? = some it →
      (recognize models score test).1[i]? = some (recognizeItem models score it).1 ∧
      (recognize models score test).2[i]? = some (recognizeItem models score it).2 ∧
      ((∃ p ∈ (recognizeItem models score it).1, p.2 ≠ ⊥) →
        ∃ w s, (recognizeItem models score it).2 = some w ∧
          (w, s) ∈ (recognizeItem models score it).1 ∧
          ∀ p ∈ (recognizeItem models score it).1, p.2 ≤ s) := by
  refine ⟨⟨by simp [recognize], by simp [recognize]⟩, ?_⟩
  intro i it hit
  refine ⟨by simp [recognize, List.getElem?_map, hit],
          by simp [recognize, List.getElem?_map, hit], ?_⟩
  intro ⟨q, hq, hqb⟩
  obtain ⟨h1, h2, h3, h4⟩ := recogLoop_spec score it models ⊥ none
  rcases h4 with ⟨he, _⟩ | ⟨p, hp, hg, hv, _⟩
  · exfalso
    have := h3 q hq
    rw [he] at this
    exact hqb (le_bot_iff.mp this)
  · refine ⟨p.1, (recogLoop score it models ⊥ none).1, hg, ?_, h3⟩
    rw [← hv, Prod.mk.eta]
    exact hp

/-- Concrete check of C2: with scores 0 and 1 present, the guess is word 1
and its recorded score 1 is the row maximum. -/
theorem recognize_argmax_witness :
    ∃ w s, (recognizeItem [((0 : ℕ), (0 : ℕ)), (1, 1)]
        (fun m (_ : ℕ) => some (m : ℚ)) 0).2 = some w ∧
      (w, s) ∈ (recognizeItem [((0 : ℕ), (0 : ℕ)), (1, 1)]
        (fun m (_ : ℕ) => some (m : ℚ)) 0).1 ∧
      ∀ p ∈ (recognizeItem [((0 : ℕ), (0 : ℕ)), (1, 1)]
        (fun m (_ : ℕ) => some (m : ℚ)) 0).1, p.2 ≤ s := by
  have h := recognize_argmax [((0 : ℕ), (0 : ℕ)), (1, 1)]
    (fun m (_ : ℕ) => some (m : ℚ)) [0]
  exact (h.2 0 0 rfl).2.2 ⟨(1, ((1 : ℚ) : WithBot ℚ)), by decide, by decide⟩

theorem sumOpt_eq_none_iff : ∀ l : List (Option ℚ), sumOpt l = none ↔ none ∈ l := by
  intro l
  induction l with
  | nil => simp [sumOpt]
  | cons o rest ih =>
    cases o with
    | none => simp [sumOpt]
    | some v =>
      cases h : sumOpt rest with
      | none => simp [sumOpt, h, ← ih, h]
      | some t => simp [sumOpt, h, ← ih, h]

/-- Claim C9: SelectorConstant.select returns the model trained at the fixed
constant state count, or None exactly when that single fit fails, and the
result never depends on min_n_components or max_n_components. -/
theorem selectConstant_fixed {Model : Type} (hmmFit : ℕ → Option Model)
    (nConstant minN maxN minN' maxN' : ℕ) :
    SelectorConstant.select hmmFit nConstant minN maxN = hmmFit nConstant ∧
    SelectorConstant.select hmmFit nConstant minN maxN
      = SelectorConstant.select hmmFit nConstant minN' maxN' := by
  constructor
  · show base_model hmmFit nConstant = hmmFit nConstant
    unfold base_model
    cases hmmFit nConstant <;> rfl
  · rfl

/-- Invariant of a minimizing selection fold: the best score never
increases, ends at or below every successful candidate's score, and the
final state is either the start state or the pair of some successful
candidate's score and model. -/
theorem selMinFold_spec {Model : Type} (cand : ℕ → Option (Model × ℚ)) :
    ∀ (l : List ℕ) (st : WithTop ℚ × Option Model),
      (l.foldl (selMinStep cand) st).1 ≤ st.1 ∧
      (∀ n ∈ l, ∀ m c, cand n = some (m, c) →
          (l.foldl (selMinStep cand) st).1 ≤ (c : WithTop ℚ)) ∧
      (l.foldl (selMinStep cand) st = st ∨
        ∃ n ∈ l, ∃ m c, cand n = some (m, c) ∧
          l.foldl (selMinStep cand) st = ((c : WithTop ℚ), some m)) := by
  intro l
  induction l with
  | nil => intro st; simp
  | cons n rest ih =>
    intro st
    have hstep : (selMinStep cand st n).1 ≤ st.1 ∧
        (∀ m c, cand n = some (m, c) → (selMinStep cand st n).1 ≤ (c : WithTop ℚ)) ∧
        (selMinStep cand st n = st ∨ ∃ m c, cand n = some (m, c) ∧
          selMinStep cand st n = ((c : WithTop ℚ), some m)) := by
      unfold selMinStep
      cases hc : cand n with
      | none => exact ⟨le_refl _, by simp, Or.inl rfl⟩
      | some mc =>
        obtain ⟨m, c⟩ := mc
        by_cases hlt : (c : WithTop ℚ) < st.1
        · refine ⟨by simp [hlt, le_of_lt hlt], ?_, ?_⟩
          · intro m' c' hc'
            obtain ⟨rfl, rfl⟩ : m = m' ∧ c = c' := by simpa using hc'
            simp [hlt]
          · exact Or.inr ⟨m, c, rfl, by simp [hlt]⟩
        · refine ⟨by simp [hlt], ?_, Or.inl (by simp [hlt])⟩
          intro m' c' hc'
          obtain ⟨rfl, rfl⟩ : m = m' ∧ c = c' := by simpa using hc'
          simp [hlt, not_lt.mp hlt]
    rw [List.foldl_cons]
    obtain ⟨h1, h2, h3⟩ := ih (selMinStep cand st n)
    refine ⟨h1.trans hstep.1, ?_, ?_⟩
    · intro n' hn' m c hcand
      rcases List.mem_cons.mp hn' with rfl | hn'
      · exact h1.trans (hstep.2.1 m c hcand)
      · exact h2 n' hn' m c hcand
    · rcases h3 with hEq | ⟨n', hm', m, c, hc, hEqv⟩
      · rw [hEq]
        rcases hstep.2.2 with hs | ⟨m, c, hc, hs⟩
        · exact Or.inl hs
        · exact Or.inr ⟨n, List.mem_cons_self _ _, m, c, hc, hs⟩
      · exact Or.inr ⟨n', List.mem_cons_of_mem _ hm', m, c, hc, hEqv⟩

/-- Inversion of a successful BIC candidate: the fit and the self-score both
succeeded and the recorded score is the BIC formula. -/
theorem bicCandidate_eq_some {Model : Type} {hmmFit : ℕ → Option Model}
    {scoreSelf : Model → Option ℚ} {nFeatures : Model → ℕ} {lnN : ℚ}
    {n : ℕ} {m : Model} {c : ℚ}
    (h : bicCandidate hmmFit scoreSelf nFeatures lnN n = some (m, c)) :
    ∃ L, base_model hmmFit n = some m ∧ scoreSelf m = some L ∧
      c = bicOf lnN (nFeatures m) n L := by
  cases hb : base_model hmmFit n with
  | none => simp [bicCandidate, hb] at h
  | some m' =>
    cases hs : scoreSelf m' with
    | none => simp [bicCandidate, hb, hs] at h
    | some L =>
      simp only [bicCandidate, hb, hs] at h
      obtain ⟨rfl, hcv⟩ : m' = m ∧ bicOf lnN (nFeatures m') n L = c := by
        simpa using h
      exact ⟨L, hb ▸ rfl, hs, hcv.symm⟩

/-- Introduction of a successful BIC candidate from a successful fit and
self-score. -/
theorem bicCandidate_intro {Model : Type} {hmmFit : ℕ → Option Model}
    {scoreSelf : Model → Option ℚ} (nFeatures : Model → ℕ) (lnN : ℚ)
    {n : ℕ} {m : Model} {L : ℚ} (hb : base_model hmmFit n = some m)
    (hs : scoreSelf m = some L) :
    bicCandidate hmmFit scoreSelf nFeatures lnN n
      = some (m, bicOf lnN (nFeatures m) n L) := by
  simp [bicCandidate, hb, hs]

/-- Claim C3: whenever at least one candidate in the range both fits and
scores, SelectorBIC.select returns a successfully fit-and-scored candidate
model whose BIC score -2*L + (n^2 + 2*n*d - 1)*ln(N) is minimal among all
successfully fit-and-scored candidates of the range; candidates whose fit or
score fails are skipped, and if every candidate fails the result is None. -/
theorem selectBIC_min {Model : Type} (hmmFit : ℕ → Option Model)
    (scoreSelf : Model → Option ℚ) (nFeatures : Model → ℕ) (lnN : ℚ)
    (minN maxN : ℕ) :
    (∀ d n L, bicOf lnN d n L
        = -2 * L + ((n : ℚ) ^ 2 + 2 * (n : ℚ) * (d : ℚ) - 1) * lnN) ∧
    ((∀ n ∈ candRange minN maxN,
        bicCandidate hmmFit scoreSelf nFeatures lnN n = none) →
      SelectorBIC.select hmmFit scoreSelf nFeatures lnN minN maxN = none) ∧
    (∀ n₀ ∈ candRange minN maxN, ∀ m₀ L₀, base_model hmmFit n₀ = some m₀ →
      scoreSelf m₀ = some L₀ →
      ∃ n, n ∈ candRange minN maxN ∧ ∃ m L, base_model hmmFit n = some m ∧
        scoreSelf m = some L ∧
        SelectorBIC.select hmmFit scoreSelf nFeatures lnN minN maxN = some m ∧
        ∀ n' ∈ candRange minN maxN, ∀ m' L', base_model hmmFit n' = some m' →
          scoreSelf m' = some L' →
            bicOf lnN (nFeatures m) n L ≤ bicOf lnN (nFeatures m') n' L') := by
  refine ⟨?_, ?_, ?_⟩
  · intro d n L
    unfold bicOf
    push_cast
    ring
  · intro hall
    obtain ⟨h1, h2, h3⟩ := selMinFold_spec (bicCandidate hmmFit scoreSelf nFeatures lnN)
      (candRange minN maxN) (⊤, none)
    unfold SelectorBIC.select
    rcases h3 with he | ⟨n, hn, m, c, hc, _⟩
    · rw [he]
    · rw [hall n hn] at hc
      exact absurd hc (by simp)
  · intro n₀ hn₀ m₀ L₀ hm₀ hL₀
    have hc0 := bicCandidate_intro nFeatures lnN hm₀ hL₀
    obtain ⟨h1, h2, h3⟩ := selMinFold_spec (bicCandidate hmmFit scoreSelf nFeatures lnN)
      (candRange minN maxN) (⊤, none)
    rcases h3 with he | ⟨n, hn, m, c, hc, hr⟩
    · exfalso
      have hle := h2 n₀ hn₀ m₀ _ hc0
      rw [he] at hle
      simp only [top_le_iff] at hle
      exact absurd hle (by simp)
    · obtain ⟨L, hbm, hs, hcv⟩ := bicCandidate_eq_some hc
      refine ⟨n, hn, m, L, hbm, hs, ?_, ?_⟩
      · unfold SelectorBIC.select
        rw [hr]
      · intro n' hn' m' L' hbm' hs'
        have hle := h2 n' hn' m' _
          (bicCandidate_intro nFeatures lnN hbm' hs')
        rw [hr] at hle
        dsimp only at hle
        rw [hcv] at hle
        exact_mod_cast hle

/-- Concrete check of C3: with only candidate 2 fitting successfully in the
range 2..3, SelectorBIC.select returns that model with the minimal BIC. -/
theorem selectBIC_min_witness :
    ∃ n, n ∈ candRange 2 3 ∧ ∃ m L,
      base_model (fun k => if k = 2 then some (7 : ℕ) else none) n = some m ∧
      (fun _ : ℕ => (some (0 : ℚ))) m = some L ∧
      SelectorBIC.select (fun k => if k = 2 then some (7 : ℕ) else none)
        (fun _ : ℕ => (some (0 : ℚ))) (fun _ : ℕ => 1) 1 2 3 = some m ∧
      ∀ n' ∈ candRange 2 3, ∀ m' L',
        base_model (fun k => if k = 2 then some (7 : ℕ) else none) n' = some m' →
        (fun _ : ℕ => (some (0 : ℚ))) m' = some L' →
          bicOf 1 ((fun _ : ℕ => 1) m) n L ≤ bicOf 1 ((fun _ : ℕ => 1) m') n' L' :=
  (selectBIC_min (fun k => if k = 2 then some (7 : ℕ) else none)
    (fun _ : ℕ => (some (0 : ℚ))) (fun _ : ℕ => 1) 1 2 3).2.2
    2 (by decide) 7 0 (by decide) rfl

/-- Invariant of a maximizing selection fold: the best score never
decreases, ends at or above every successful candidate's score, and the
final state is either the start state or the pair of some successful
candidate's score and model. -/
theorem selMaxFold_spec {Model : Type} (cand : ℕ → Option (Model × ℚ)) :
    ∀ (l : List ℕ) (st : WithBot ℚ × Option Model),
      st.1 ≤ (l.foldl (selMaxStep cand) st).1 ∧
      (∀ n ∈ l, ∀ m c, cand n = some (m, c) →
          (c : WithBot ℚ) ≤ (l.foldl (selMaxStep cand) st).1) ∧
      (l.foldl (selMaxStep cand) st = st ∨
        ∃ n ∈ l, ∃ m c, cand n = some (m, c) ∧
          l.foldl (selMaxStep cand) st = ((c : WithBot ℚ), some m)) := by
  intro l
  induction l with
  | nil => intro st; simp
  | cons n rest ih =>
    intro st
    have hstep : st.1 ≤ (selMaxStep cand st n).1 ∧
        (∀ m c, cand n = some (m, c) → (c : WithBot ℚ) ≤ (selMaxStep cand st n).1) ∧
        (selMaxStep cand st n = st ∨ ∃ m c, cand n = some (m, c) ∧
          selMaxStep cand st n = ((c : WithBot ℚ), some m)) := by
      unfold selMaxStep
      cases hc : cand n with
      | none => exact ⟨le_refl _, by simp, Or.inl rfl⟩
      | some mc =>
        obtain ⟨m, c⟩ := mc
        by_cases hlt : st.1 < (c : WithBot ℚ)
        · refine ⟨by simp [hlt, le_of_lt hlt], ?_, ?_⟩
          · intro m' c' hc'
            obtain ⟨rfl, rfl⟩ : m = m' ∧ c = c' := by simpa using hc'
            simp [hlt]
          · exact Or.inr ⟨m, c, rfl, by simp [hlt]⟩
        · refine ⟨by simp [hlt], ?_, Or.inl (by simp [hlt])⟩
          intro m' c' hc'
          obtain ⟨rfl, rfl⟩ : m = m' ∧ c = c' := by simpa using hc'
          simp [hlt, not_lt.mp hlt]
    rw [List.foldl_cons]
    obtain ⟨h1, h2, h3⟩ := ih (selMaxStep cand st n)
    refine ⟨hstep.1.trans h1, ?_, ?_⟩
    · intro n' hn' m c hcand
      rcases List.mem_cons.mp hn' with rfl | hn'
      · exact (hstep.2.1 m c hcand).trans h1
      · exact h2 n' hn' m c hcand
    · rcases h3 with hEq | ⟨n', hm', m, c, hc, hEqv⟩
      · rw [hEq]
        rcases hstep.2.2 with hs | ⟨m, c, hc, hs⟩
        · exact Or.inl hs
        · exact Or.inr ⟨n, List.mem_cons_self _ _, m, c, hc, hs⟩
      · exact Or.inr ⟨n', List.mem_cons_of_mem _ hm', m, c, hc, hEqv⟩

/-- With no duplicate words, removing the target word from the vocabulary
leaves exactly len(words) - 1 other words. -/
theorem filter_ne_length {Word : Type} [DecidableEq Word] :
    ∀ (l : List Word) (w : Word), l.Nodup → w ∈ l →
      (l.filter (fun x => x ≠ w)).length = l.length - 1 := by
  intro l
  induction l with
  | nil => intro w _ hw; cases hw
  | cons a l ih =>
    intro w hnd hw
    obtain ⟨ha, hnd'⟩ := List.nodup_cons.mp hnd
    rcases List.mem_cons.mp hw with rfl | hw
    · have hfl : List.filter (fun x => decide (x ≠ w)) l = l := by
        rw [List.filter_eq_self]
        intro x hx
        simp only [decide_eq_true_eq]
        exact fun hxw => ha (hxw ▸ hx)
      simp only [List.filter_cons, List.length_cons]
      rw [show (decide (w ≠ w)) = false by simp]
      simp only [Bool.false_eq_true, if_false]
      rw [hfl]
      omega
    · have haw : a ≠ w := fun h => ha (h ▸ hw)
      have hpos : 0 < l.length := List.length_pos.mpr (List.ne_nil_of_mem hw)
      have hrec := ih w hnd' hw
      simp only [List.filter_cons, List.length_cons]
      rw [show (decide (a ≠ w)) = true by simp [haw]]
      simp only [if_true, List.length_cons]
      omega

/-- Inversion of a successful DIC candidate: the fit, the self-score and
every other-word score succeeded, the vocabulary has other words, and the
recorded score is logL minus the accumulated other-word total divided by
len(self.words) - 1. -/
theorem dicCandidate_eq_some {Model Word : Type} [DecidableEq Word]
    {hmmFit : ℕ → Option Model} {scoreSelf : Model → Option ℚ}
    {scoreOn : Model → Word → Option ℚ} {words : List Word} {thisWord : Word}
    {n : ℕ} {m : Model} {c : ℚ}
    (h : dicCandidate hmmFit scoreSelf scoreOn words thisWord n = some (m, c)) :
    ∃ L t, base_model hmmFit n = some m ∧ scoreSelf m = some L ∧
      sumOpt ((words.filter (fun w => w ≠ thisWord)).map (scoreOn m)) = some t ∧
      ((words.length : ℤ) - 1) ≠ 0 ∧
      c = L - t / ((((words.length : ℤ) - 1 : ℤ)) : ℚ) := by
  cases hb : base_model hmmFit n with
  | none => simp [dicCandidate, hb] at h
  | some m' =>
    cases hs : scoreSelf m' with
    | none => simp [dicCandidate, hb, hs] at h
    | some L =>
      cases ht : sumOpt ((words.filter (fun w => w ≠ thisWord)).map (scoreOn m')) with
      | none =>
        simp only [dicCandidate, hb] at h
        simp only [hs] at h
        simp only [ne_eq] at ht
        simp only [ht] at h
        simp at h
      | some t =>
        simp only [dicCandidate, hb] at h
        simp only [hs] at h
        simp only [ne_eq] at ht
        simp only [ht] at h
        by_cases hz : ((words.length : ℤ) - 1) = 0
        · simp only [if_pos hz] at h
          simp at h
        · simp only [if_neg hz] at h
          obtain ⟨rfl, hcv⟩ :
              m' = m ∧ L - t / ((((words.length : ℤ) - 1 : ℤ)) : ℚ) = c := by
            simpa using h
          exact ⟨L, t, hb ▸ rfl, hs, ht, hz, hcv.symm⟩

/-- Introduction of a successful DIC candidate from successful fit and
score calls when the vocabulary has other words. -/
theorem dicCandidate_intro {Model Word : Type} [DecidableEq Word]
    {hmmFit : ℕ → Option Model} {scoreSelf : Model → Option ℚ}
    (scoreOn : Model → Word → Option ℚ) (words : List Word) (thisWord : Word)
    {n : ℕ} {m : Model} {L t : ℚ} (hb : base_model hmmFit n = some m)
    (hs : scoreSelf m = some L)
    (ht : sumOpt ((words.filter (fun w => w ≠ thisWord)).map (scoreOn m)) = some t)
    (hz : ((words.length : ℤ) - 1) ≠ 0) :
    dicCandidate hmmFit scoreSelf scoreOn words thisWord n
      = some (m, L - t / ((((words.length : ℤ) - 1 : ℤ)) : ℚ)) := by
  simp only [dicCandidate, hb]
  simp only [hs]
  simp only [ne_eq] at ht ⊢
  simp only [ht]
  simp only [if_neg hz]

/-- Claim C4: with a vocabulary of at least two distinct words, any
candidate whose self-score or any other-word score fails is skipped, if all
candidates fail the result is None, and whenever some candidate fits and
scores fully, SelectorDIC.select returns a fully scored candidate whose
DIC value L - (sum of other-word log-likelihoods) / (number of other words),
i.e. L minus the mean of the other-word log-likelihoods, is maximal among
all fully scored candidates. -/
theorem selectDIC_max {Model Word : Type} [DecidableEq Word]
    (hmmFit : ℕ → Option Model) (scoreSelf : Model → Option ℚ)
    (scoreOn : Model → Word → Option ℚ) (words : List Word) (thisWord : Word)
    (minN maxN : ℕ) (hnd : words.Nodup) (hmem : thisWord ∈ words)
    (hlen : 2 ≤ words.length) :
    (∀ n m, base_model hmmFit n = some m →
        (scoreSelf m = none ∨
          ∃ w ∈ words.filter (fun w => w ≠ thisWord), scoreOn m w = none) →
        dicCandidate hmmFit scoreSelf scoreOn words thisWord n = none) ∧
    ((∀ n ∈ candRange minN maxN,
        dicCandidate hmmFit scoreSelf scoreOn words thisWord n = none) →
      SelectorDIC.select hmmFit scoreSelf scoreOn words thisWord minN maxN = none) ∧
    (∀ n₀ ∈ candRange minN maxN, ∀ m₀ L₀ t₀, base_model hmmFit n₀ = some m₀ →
      scoreSelf m₀ = some L₀ →
      sumOpt ((words.filter (fun w => w ≠ thisWord)).map (scoreOn m₀)) = some t₀ →
      ∃ n, n ∈ candRange minN maxN ∧ ∃ m L t, base_model hmmFit n = some m ∧
        scoreSelf m = some L ∧
        sumOpt ((words.filter (fun w => w ≠ thisWord)).map (scoreOn m)) = some t ∧
        SelectorDIC.select hmmFit scoreSelf scoreOn words thisWord minN maxN
          = some m ∧
        ∀ n' ∈ candRange minN maxN, ∀ m' L' t', base_model hmmFit n' = some m' →
          scoreSelf m' = some L' →
          sumOpt ((words.filter (fun w => w ≠ thisWord)).map (scoreOn m')) = some t' →
            L' - t' / (((words.filter (fun w => w ≠ thisWord)).length : ℚ))
              ≤ L - t / (((words.filter (fun w => w ≠ thisWord)).length : ℚ))) := by
  have hz : ((words.length : ℤ) - 1) ≠ 0 := by
    have h2 : (2 : ℤ) ≤ (words.length : ℤ) := by exact_mod_cast hlen
    omega
  have h1 : 1 ≤ words.length := le_trans one_le_two hlen
  have hDq : (((words.filter (fun w => w ≠ thisWord)).length : ℕ) : ℚ)
      = ((((words.length : ℤ) - 1 : ℤ)) : ℚ) := by
    rw [filter_ne_length words thisWord hnd hmem, Nat.cast_sub h1]
    push_cast
    ring
  refine ⟨?_, ?_, ?_⟩
  · intro n m hb hfail
    rcases hfail with hs | ⟨w, hw, hscw⟩
    · simp [dicCandidate, hb, hs]
    · have hsum : sumOpt ((words.filter (fun w => w ≠ thisWord)).map (scoreOn m))
          = none :=
        (sumOpt_eq_none_iff _).mpr (List.mem_map.mpr ⟨w, hw, hscw⟩)
      cases hs : scoreSelf m with
      | none => simp [dicCandidate, hb, hs]
      | some L =>
        simp only [dicCandidate, hb]
        simp only [hs]
        simp only [ne_eq] at hsum
        simp only [hsum]
  · intro hall
    obtain ⟨h1f, h2f, h3f⟩ :=
      selMaxFold_spec (dicCandidate hmmFit scoreSelf scoreOn words thisWord)
        (candRange minN maxN) (⊥, none)
    unfold SelectorDIC.select
    rcases h3f with he | ⟨n, hn, m, c, hc, _⟩
    · rw [he]
    · rw [hall n hn] at hc
      exact absurd hc (by simp)
  · intro n₀ hn₀ m₀ L₀ t₀ hb₀ hs₀ ht₀
    have hc0 := dicCandidate_intro scoreOn words thisWord hb₀ hs₀ ht₀ hz
    obtain ⟨h1f, h2f, h3f⟩ :=
      selMaxFold_spec (dicCandidate hmmFit scoreSelf scoreOn words thisWord)
        (candRange minN maxN) (⊥, none)
    rcases h3f with he | ⟨n, hn, m, c, hc, hr⟩
    · exfalso
      have hle := h2f n₀ hn₀ m₀ _ hc0
      rw [he] at hle
      exact absurd (le_bot_iff.mp hle) (by simp)
    · obtain ⟨L, t, hbm, hs, ht, _, hcv⟩ := dicCandidate_eq_some hc
      refine ⟨n, hn, m, L, t, hbm, hs, ht, ?_, ?_⟩
      · unfold SelectorDIC.select
        rw [hr]
      · intro n' hn' m' L' t' hbm' hs' ht'
        have hle := h2f n' hn' m' _
          (dicCandidate_intro scoreOn words thisWord hbm' hs' ht' hz)
        rw [hr] at hle
        dsimp only at hle
        have hql : L' - t' / ((((words.length : ℤ) - 1 : ℤ)) : ℚ) ≤ c := by
          exact_mod_cast hle
        rw [hcv] at hql
        rw [hDq]
        exact hql

/-- Concrete check of C4: vocabulary [0, 1] with target word 0, one
candidate k = 2 that fits and scores everywhere; SelectorDIC.select returns
it with the maximal DIC value. -/
theorem selectDIC_max_witness :
    ∃ n, n ∈ candRange 2 2 ∧ ∃ m L t,
      base_model (fun k => if k = 2 then some (0 : ℕ) else none) n = some m ∧
      (fun _ : ℕ => (some (5 : ℚ) : Option ℚ)) m = some L ∧
      sumOpt ((([0, 1] : List ℕ).filter (fun w => w ≠ (0 : ℕ))).map
        ((fun (_ : ℕ) (_ : ℕ) => (some (1 : ℚ) : Option ℚ)) m)) = some t ∧
      SelectorDIC.select (fun k => if k = 2 then some (0 : ℕ) else none)
        (fun _ : ℕ => (some (5 : ℚ) : Option ℚ))
        (fun (_ : ℕ) (_ : ℕ) => (some (1 : ℚ) : Option ℚ)) [0, 1] 0 2 2
        = some m ∧
      ∀ n' ∈ candRange 2 2, ∀ m' L' t',
        base_model (fun k => if k = 2 then some (0 : ℕ) else none) n' = some m' →
        (fun _ : ℕ => (some (5 : ℚ) : Option ℚ)) m' = some L' →
        sumOpt ((([0, 1] : List ℕ).filter (fun w => w ≠ (0 : ℕ))).map
          ((fun (_ : ℕ) (_ : ℕ) => (some (1 : ℚ) : Option ℚ)) m')) = some t' →
          L' - t' / (((([0, 1] : List ℕ).filter (fun w => w ≠ (0 : ℕ))).length : ℚ))
            ≤ L - t / (((([0, 1] : List ℕ).filter (fun w => w ≠ (0 : ℕ))).length : ℚ)) :=
  (selectDIC_max (fun k => if k = 2 then some (0 : ℕ) else none)
    (fun _ : ℕ => (some (5 : ℚ) : Option ℚ))
    (fun (_ : ℕ) (_ : ℕ) => (some (1 : ℚ) : Option ℚ)) [0, 1] 0 2 2
    (by decide) (by decide) (by decide)).2.2 2 (by decide) 0 5 1
    rfl rfl (by norm_num [sumOpt])

/-- On the single-example path every candidate leaves the selection state
unchanged: either the fit raises, or the stale-variable read raises. -/
theorem cvStepSingle_id {Model : Type} (fitFull : ℕ → Option Model)
    (st : WithBot ℚ × Option Model) (k : ℕ) : cvStepSingle fitFull st k = st := by
  unfold cvStepSingle
  cases fitFull k <;> rfl

/-- Claim C6 evaluation: for a word with exactly one training example
sequence, SelectorCV.select always returns None — whatever the candidate
range and however well the fits would succeed — because the single-example
fallback reads the unbound local variable model and the resulting
UnboundLocalError is swallowed for every candidate.  This contradicts the
specified contract (return a full-data model with a finite self-score). -/
theorem selectCV_single_example_none {Model : Type} (fitFull : ℕ → Option Model)
    (foldLL : ℕ → ℕ → Option ℚ) (minN maxN : ℕ) :
    SelectorCV.select 1 fitFull foldLL minN maxN = none := by
  unfold SelectorCV.select
  rw [if_pos (le_refl 1)]
  have hfold : ∀ (l : List ℕ) (st : WithBot ℚ × Option Model),
      l.foldl (cvStepSingle fitFull) st = st := by
    intro l
    induction l with
    | nil => intro st; rfl
    | cons k rest ih =>
      intro st
      rw [List.foldl_cons, cvStepSingle_id]
      exact ih st
  rw [hfold]

/-- Any model held by the SelectorCV comparison state was produced by the
full-data refit of some candidate whose cross-validation mean was
available. -/
theorem cvFold_model {Model : Type} (fitFull : ℕ → Option Model)
    (foldLL : ℕ → ℕ → Option ℚ) (nf : ℕ) :
    ∀ (l : List ℕ) (st : WithBot ℚ × Option Model),
      (l.foldl (cvStep fitFull foldLL nf) st).2 = st.2 ∨
        ∃ k ∈ l, ∃ m, (cvMean foldLL nf k).isSome ∧ fitFull k = some m ∧
          (l.foldl (cvStep fitFull foldLL nf) st).2 = some m := by
  intro l
  induction l with
  | nil => intro st; exact Or.inl rfl
  | cons k rest ih =>
    intro st
    rw [List.foldl_cons]
    have hstep : (cvStep fitFull foldLL nf st k).2 = st.2 ∨
        ∃ m, (cvMean foldLL nf k).isSome ∧ fitFull k = some m ∧
          (cvStep fitFull foldLL nf st k).2 = some m := by
      unfold cvStep
      cases hm : cvMean foldLL nf k with
      | none => exact Or.inl rfl
      | some sc =>
        by_cases hlt : st.1 < (sc : WithBot ℚ)
        · cases hf : fitFull k with
          | none => exact Or.inl (by simp [hlt])
          | some m => exact Or.inr ⟨m, by simp, hf ▸ rfl, by simp [hlt]⟩
        · exact Or.inl (by simp [hlt])
    rcases hstep with h0 | ⟨m, hmm, hf, h0⟩
    · rcases ih (cvStep fitFull foldLL nf st k) with hi | ⟨k', hk', m', hmm', hf', hi⟩
      · exact Or.inl (hi.trans h0)
      · exact Or.inr ⟨k', List.mem_cons_of_mem _ hk', m', hmm', hf', hi⟩
    · rcases ih (cvStep fitFull foldLL nf st k) with hi | ⟨k', hk', m', hmm', hf', hi⟩
      · exact Or.inr ⟨k, List.mem_cons_self _ _, m, hmm, hf, hi.trans h0⟩
      · exact Or.inr ⟨k', List.mem_cons_of_mem _ hk', m', hmm', hf', hi⟩

/-- Claim C5: on the multi-example cross-validation path, any model that
SelectorCV.select returns is a full-data fit (self.X, self.lengths) of some
candidate in the range, never a fold-trained model. -/
theorem selectCV_full_refit {Model : Type} (numSeq : ℕ)
    (fitFull : ℕ → Option Model) (foldLL : ℕ → ℕ → Option ℚ)
    (minN maxN : ℕ) (m : Model) (hseq : 2 ≤ numSeq)
    (hsel : SelectorCV.select numSeq fitFull foldLL minN maxN = some m) :
    ∃ k ∈ candRange minN maxN, fitFull k = some m := by
  unfold SelectorCV.select at hsel
  rw [if_neg (by omega)] at hsel
  rcases cvFold_model fitFull foldLL (min numSeq 3) (candRange minN maxN) (⊥, none)
    with h | ⟨k, hk, m', _, hf, h⟩
  · rw [h] at hsel
    exact absurd hsel (by simp)
  · rw [h] at hsel
    obtain rfl : m' = m := by simpa using hsel
    exact ⟨k, hk, hf⟩

/-- Concrete check of C5: with two examples and full-data fits fun k =>
some k, the returned model some 2 is the full-data fit of candidate 2. -/
theorem selectCV_full_refit_witness :
    ∃ k ∈ candRange 2 2, (fun k : ℕ => (some k : Option ℕ)) k = some 2 := by
  apply selectCV_full_refit 2 (fun k : ℕ => (some k : Option ℕ))
    (fun (_ : ℕ) (_ : ℕ) => (some 1 : Option ℚ)) 2 2 2 (by norm_num)
  have hm : cvMean (fun (_ : ℕ) (_ : ℕ) => (some 1 : Option ℚ)) (min 2 3) 2
      = some 1 := by
    norm_num [cvMean, sumOpt, List.range]
  unfold SelectorCV.select
  rw [if_neg (by norm_num)]
  have hcr : candRange 2 2 = [2] := rfl
  rw [hcr, List.foldl_cons, List.foldl_nil]
  show (cvStep (fun k : ℕ => (some k : Option ℕ))
    (fun (_ : ℕ) (_ : ℕ) => (some 1 : Option ℚ)) (min 2 3) (⊥, none) 2).2 = some 2
  unfold cvStep
  rw [hm]
  dsimp only
  rw [if_pos (WithBot.bot_lt_coe _)]

/-- A cross-validation mean that is available certifies that every fold's
fit-and-score succeeded (there is no per-fold recovery). -/
theorem cvMean_isSome_folds {foldLL : ℕ → ℕ → Option ℚ} {nf k : ℕ}
    (h : (cvMean foldLL nf k).isSome) : ∀ i < nf, (foldLL k i).isSome := by
  intro i hi
  cases hsum : sumOpt ((List.range nf).map (foldLL k)) with
  | none =>
    simp only [cvMean, hsum] at h
    simp at h
  | some t =>
    have hnone : none ∉ (List.range nf).map (foldLL k) := by
      intro hmem
      rw [(sumOpt_eq_none_iff _).mpr hmem] at hsum
      exact absurd hsum (by simp)
    cases ho : foldLL k i with
    | none => exact absurd (List.mem_map.mpr ⟨i, List.mem_range.mpr hi, ho⟩) hnone
    | some v => simp

/-- Claim C7 counterexample: candidate k = 2 has three folds of which only
fold 1 fails; the whole candidate is skipped and select returns None, even
though folds 0 and 2 succeed and the candidate's full-data fit would
succeed — the surviving folds do not contribute as the claim states. -/
theorem cv_fold_skip_counterexample :
    SelectorCV.select 3 (fun _ : ℕ => (some 0 : Option ℕ))
      (fun (_ : ℕ) (i : ℕ) => if i = 1 then (none : Option ℚ) else some 1)
      2 2 = none ∧
    (fun (_ : ℕ) (i : ℕ) => if i = 1 then (none : Option ℚ) else some 1) 2 0
      = some 1 ∧
    (fun (_ : ℕ) (i : ℕ) => if i = 1 then (none : Option ℚ) else some 1) 2 1
      = none ∧
    (fun (_ : ℕ) (i : ℕ) => if i = 1 then (none : Option ℚ) else some 1) 2 2
      = some 1 ∧
    (fun _ : ℕ => (some 0 : Option ℕ)) 2 = some 0 := by
  refine ⟨?_, rfl, rfl, rfl, rfl⟩
  have hm : cvMean (fun (_ : ℕ) (i : ℕ) => if i = 1 then (none : Option ℚ) else some 1)
      (min 3 3) 2 = none := by
    norm_num [cvMean, sumOpt, List.range]
  unfold SelectorCV.select
  rw [if_neg (by norm_num)]
  have hcr : candRange 2 2 = [2] := rfl
  rw [hcr, List.foldl_cons, List.foldl_nil]
  show (cvStep (fun _ : ℕ => (some 0 : Option ℕ))
    (fun (_ : ℕ) (i : ℕ) => if i = 1 then (none : Option ℚ) else some 1)
    (min 3 3) (⊥, none) 2).2 = none
  unfold cvStep
  rw [hm]

/-- Claim C7 (amended): in SelectorCV.select, a candidate any of whose folds
fails to fit or score is skipped as a whole — its surviving folds do not
contribute — and a candidate can win only when every one of its folds
succeeds. -/
theorem cv_candidate_whole_skip {Model : Type} (fitFull : ℕ → Option Model)
    (foldLL : ℕ → ℕ → Option ℚ) :
    (∀ (nf : ℕ) (st : WithBot ℚ × Option Model) (k : ℕ),
      (∃ i, i < nf ∧ foldLL k i = none) → cvStep fitFull foldLL nf st k = st) ∧
    (∀ (numSeq minN maxN : ℕ) (m : Model), 2 ≤ numSeq →
      SelectorCV.select numSeq fitFull foldLL minN maxN = some m →
      ∃ k ∈ candRange minN maxN,
        (∀ i < min numSeq 3, (foldLL k i).isSome) ∧ fitFull k = some m) := by
  constructor
  · intro nf st k ⟨i, hi, hnone⟩
    have hsum : sumOpt ((List.range nf).map (foldLL k)) = none :=
      (sumOpt_eq_none_iff _).mpr (List.mem_map.mpr ⟨i, List.mem_range.mpr hi, hnone⟩)
    have hmean : cvMean foldLL nf k = none := by
      simp only [cvMean, hsum]
    unfold cvStep
    rw [hmean]
  · intro numSeq minN maxN m hseq hsel
    unfold SelectorCV.select at hsel
    rw [if_neg (by omega)] at hsel
    rcases cvFold_model fitFull foldLL (min numSeq 3) (candRange minN maxN) (⊥, none)
      with h | ⟨k, hk, m', hmm, hf, h⟩
    · rw [h] at hsel
      exact absurd hsel (by simp)
    · rw [h] at hsel
      obtain rfl : m' = m := by simpa using hsel
      exact ⟨k, hk, cvMean_isSome_folds hmm, hf⟩

/-- Concrete check of the amended C7: a candidate with one failing fold
leaves the comparison state untouched. -/
theorem cv_candidate_whole_skip_witness :
    cvStep (fun _ : ℕ => (some 0 : Option ℕ))
      (fun (_ : ℕ) (i : ℕ) => if i = 1 then (none : Option ℚ) else some 1)
      (min 3 3) (⊥, none) 2 = (⊥, none) :=
  (cv_candidate_whole_skip (fun _ : ℕ => (some 0 : Option ℕ))
    (fun (_ : ℕ) (i : ℕ) => if i = 1 then (none : Option ℚ) else some 1)).1
    (min 3 3) (⊥, none) 2 ⟨1, by norm_num, rfl⟩

/-- Claim C10: in SelectorCV.select the comparison state is not updated
atomically.  (a) In general, when a candidate's cross-validation mean beats
the current best but its full-data refit raises, best_score is still raised
to that mean while best_model is left unchanged.  (b) Concretely, with
candidates 2, 3, 4 averaging 5, 10, 7 where only candidate 3's refit fails,
select returns candidate 2's model: candidate 4 (mean 7 > 5, refit fine)
cannot beat the dead candidate 3's score of 10, so the returned model is not
the best among candidates whose refit succeeds. -/
theorem cv_nonatomic_best_update :
    (∀ (Model : Type) (fitFull : ℕ → Option Model) (foldLL : ℕ → ℕ → Option ℚ)
        (nf : ℕ) (st : WithBot ℚ × Option Model) (k : ℕ) (sc : ℚ),
      cvMean foldLL nf k = some sc → st.1 < (sc : WithBot ℚ) → fitFull k = none →
      cvStep fitFull foldLL nf st k = ((sc : WithBot ℚ), st.2)) ∧
    (SelectorCV.select 2 cvRefitScenario cvMeanScenario 2 4 = some 2 ∧
      cvMean cvMeanScenario (min 2 3) 2 = some 5 ∧
      cvMean cvMeanScenario (min 2 3) 3 = some 10 ∧
      cvRefitScenario 3 = none ∧
      cvMean cvMeanScenario (min 2 3) 4 = some 7 ∧
      cvRefitScenario 4 = some 4 ∧
      (5 : ℚ) < 7) := by
  constructor
  · intro Model fitFull foldLL nf st k sc hmean hlt hfit
    unfold cvStep
    rw [hmean]
    dsimp only
    rw [if_pos hlt, hfit]
  · have hm2 : cvMean cvMeanScenario (min 2 3) 2 = some 5 := by
      norm_num [cvMean, sumOpt, List.range, cvMeanScenario]
    have hm3 : cvMean cvMeanScenario (min 2 3) 3 = some 10 := by
      norm_num [cvMean, sumOpt, List.range, cvMeanScenario]
    have hm4 : cvMean cvMeanScenario (min 2 3) 4 = some 7 := by
      norm_num [cvMean, sumOpt, List.range, cvMeanScenario]
    refine ⟨?_, hm2, hm3, rfl, hm4, rfl, by norm_num⟩
    have hs1 : cvStep cvRefitScenario cvMeanScenario (min 2 3) (⊥, none) 2
        = (((5 : ℚ) : WithBot ℚ), some 2) := by
      unfold cvStep
      rw [hm2]
      dsimp only
      rw [if_pos (WithBot.bot_lt_coe _)]
      rfl
    have hs2 : cvStep cvRefitScenario cvMeanScenario (min 2 3)
        (((5 : ℚ) : WithBot ℚ), some 2) 3 = (((10 : ℚ) : WithBot ℚ), some 2) := by
      unfold cvStep
      rw [hm3]
      dsimp only
      rw [if_pos (WithBot.coe_lt_coe.mpr (by norm_num))]
      rfl
    have hs3 : cvStep cvRefitScenario cvMeanScenario (min 2 3)
        (((10 : ℚ) : WithBot ℚ), some 2) 4 = (((10 : ℚ) : WithBot ℚ), some 2) := by
      unfold cvStep
      rw [hm4]
      dsimp only
      rw [if_neg]
      intro hcontra
      have : (10 : ℚ) < 7 := WithBot.coe_lt_coe.mp hcontra
      norm_num at this
    unfold SelectorCV.select
    rw [if_neg (by norm_num)]
    have hcr : candRange 2 4 = [2, 3, 4] := rfl
    rw [hcr, List.foldl_cons, List.foldl_cons, List.foldl_cons, List.foldl_nil]
    rw [hs1, hs2, hs3]

/-- Concrete check of C10 part (a): candidate 3's mean 10 beats the best
score 5 but its refit fails, so best_score rises to 10 while best_model
stays candidate 2's model. -/
theorem cv_nonatomic_best_update_witness :
    cvStep cvRefitScenario cvMeanScenario (min 2 3)
      (((5 : ℚ) : WithBot ℚ), some 2) 3 = (((10 : ℚ) : WithBot ℚ), some 2) :=
  cv_nonatomic_best_update.1 ℕ cvRefitScenario cvMeanScenario (min 2 3)
    (((5 : ℚ) : WithBot ℚ), some 2) 3 10
    (by norm_num [cvMean, sumOpt, List.range, cvMeanScenario])
    (WithBot.coe_lt_coe.mpr (by norm_num)) rfl

/-- Claim C8 counterexample: constructing a selector with the invalid range
min_n_components = 5 > max_n_components = 2 (violating min <= max) succeeds
without raising, and a subsequent BIC selection over the resulting empty
range silently returns None rather than raising — so an invalid search
range is not detected eagerly at construction, nor later. -/
theorem init_range_unchecked_counterexample :
    (modelSelectorInit [((0 : ℕ), (0 : ℕ))] [((0 : ℕ), (0 : ℕ))] 0 3 5 2 14
      false).isSome = true ∧
    SelectorBIC.select (fun _ : ℕ => (none : Option ℕ)) (fun _ => none)
      (fun _ => 0) 0 5 2 = none := by
  exact ⟨rfl, rfl⟩

/-- Claim C8 (amended): at ModelSelector construction only a missing target
word is detected eagerly and raised (the two dict lookups); the search-range
bounds are stored unvalidated, and whether construction succeeds is
independent of them. -/
theorem modelSelectorInit_spec {Word Seqs XL : Type} [DecidableEq Word]
    (ws : List (Word × Seqs)) (xs : List (Word × XL)) (w : Word)
    (nc minN maxN rs : ℕ) (vb : Bool) :
    ((modelSelectorInit ws xs w nc minN maxN rs vb).isSome ↔
      ((ws.lookup w).isSome ∧ (xs.lookup w).isSome)) ∧
    (∀ st, modelSelectorInit ws xs w nc minN maxN rs vb = some st →
      st.minNComponents = minN ∧ st.maxNComponents = maxN) := by
  cases h1 : ws.lookup w with
  | none =>
    constructor
    · simp [modelSelectorInit, h1]
    · intro st hst
      simp [modelSelectorInit, h1] at hst
  | some seqs =>
    cases h2 : xs.lookup w with
    | none =>
      constructor
      · simp [modelSelectorInit, h1, h2]
      · intro st hst
        simp [modelSelectorInit, h1, h2] at hst
    | some xl =>
      constructor
      · simp [modelSelectorInit, h1, h2]
      · intro st hst
        simp only [modelSelectorInit, h1, h2] at hst
        obtain rfl :
            (⟨ws, xs, seqs, xl, w, nc, minN, maxN, rs, vb⟩ : MSState Word Seqs XL)
              = st := by
          simpa using hst
        exact ⟨rfl, rfl⟩

/-- Concrete check of the amended C8: construction with bounds 5 and 2
stores them as-is. -/
theorem modelSelectorInit_spec_witness :
    (⟨[((0 : ℕ), (0 : ℕ))], [((0 : ℕ), (0 : ℕ))], 0, 0, 0, 3, 5, 2, 14, false⟩ :
        MSState ℕ ℕ ℕ).minNComponents = 5 ∧
    (⟨[((0 : ℕ), (0 : ℕ))], [((0 : ℕ), (0 : ℕ))], 0, 0, 0, 3, 5, 2, 14, false⟩ :
        MSState ℕ ℕ ℕ).maxNComponents = 2 :=
  (modelSelectorInit_spec [((0 : ℕ), (0 : ℕ))] [((0 : ℕ), (0 : ℕ))] 0 3 5 2 14
    false).2 _ rfl
